import Mathlib

/-!
# Verification of `analyze.py` (Leaders-and-Followers benchmarking harness)

Shallow embedding of the measurement engine of `src/analyze.py`:
latency statistics (`calculate_stats`), the consistency checker
(`check_consistency`), the write client (`write_key`), the bounded
concurrent write driver (`run_concurrent_writes`) and the quorum-sweep
orchestrator (`run_analysis`).

Latencies (Python floats) are modelled as rationals `ℚ`; all ordering and
arithmetic facts proved here hold for the exact arithmetic.  Python's
`int(n * 0.95)` / `int(n * 0.99)` are modelled as the exact natural-number
divisions `(n * 95) / 100` and `(n * 99) / 100`: for every sample size at
which the two could differ the float product `n * 0.95` (resp. `0.99`)
rounds to the exact integer value, so the model agrees with the source.
-/

namespace Analyze

/-- `LatencyStats` dataclass (analyze.py lines 42-50). -/
structure LatencyStats where
  mean : ℚ
  median : ℚ
  p95 : ℚ
  p99 : ℚ
  min_val : ℚ
  max_val : ℚ
deriving Repr, DecidableEq

/-- `sorted(latencies)` (line 128): ascending sort.  Insertion sort is used
here; for the linear order on `ℚ` its output is the unique sorted
permutation, hence agrees with Python's sort. -/
def sortedLats (l : List ℚ) : List ℚ :=
  List.insertionSort (· ≤ ·) l

/-- The percentile index `int(n * p/100)` of lines 134-135,
in exact arithmetic: `⌊n * num / 100⌋`. -/
def pIndex (n num : Nat) : Nat :=
  (n * num) / 100

/-- `statistics.mean(latencies)`: the arithmetic average. -/
def pyMean (l : List ℚ) : ℚ :=
  l.sum / l.length

/-- `statistics.median(latencies)`: middle element of the sorted list for
odd length, average of the two middle elements for even length. -/
def pyMedian (l : List ℚ) : ℚ :=
  let s := sortedLats l
  let n := l.length
  if n % 2 = 1 then s.getD (n / 2) 0
  else (s.getD (n / 2 - 1) 0 + s.getD (n / 2) 0) / 2

/-- `min(latencies)` over a non-empty list. -/
def pyMin : List ℚ → ℚ
  | [] => 0
  | x :: xs => xs.foldl min x

/-- `max(latencies)` over a non-empty list. -/
def pyMax : List ℚ → ℚ
  | [] => 0
  | x :: xs => xs.foldl max x

/-- `calculate_stats` (analyze.py lines 123-138).  On an empty sample it
returns the all-zero record (line 126); otherwise mean, median, the
`int(n*0.95)` / `int(n*0.99)` entries of the sorted sample (with the
`n > 1` guard of lines 134-135), min and max. -/
def calculate_stats (latencies : List ℚ) : LatencyStats :=
  if latencies = [] then ⟨0, 0, 0, 0, 0, 0⟩
  else
    let sorted_lats := sortedLats latencies
    let n := latencies.length
    { mean := pyMean latencies
      median := pyMedian latencies
      p95 := if n > 1 then sorted_lats.getD (pIndex n 95) 0 else sorted_lats.getD 0 0
      p99 := if n > 1 then sorted_lats.getD (pIndex n 99) 0 else sorted_lats.getD 0 0
      min_val := pyMin latencies
      max_val := pyMax latencies }

/-- Nearest-rank percentile as the specification words it: the value at
1-indexed rank `⌈n * num / 100⌉` of the ascending-sorted sample.  This
definition follows the spec's words (§4.3), to be compared against the
source's `calculate_stats`. -/
def nearestRank (l : List ℚ) (num : Nat) : ℚ :=
  (sortedLats l).getD ((l.length * num + 99) / 100 - 1) 0

/-- The value at 1-indexed rank `k` of the ascending-sorted sample. -/
def rankValue (l : List ℚ) (k : Nat) : ℚ :=
  (sortedLats l).getD (k - 1) 0

theorem length_sortedLats (l : List ℚ) : (sortedLats l).length = l.length :=
  List.length_insertionSort _ l

theorem sorted_sortedLats (l : List ℚ) : (sortedLats l).Sorted (· ≤ ·) :=
  List.sorted_insertionSort _ l

theorem mem_sortedLats {x : ℚ} {l : List ℚ} : x ∈ sortedLats l ↔ x ∈ l :=
  (List.perm_insertionSort _ l).mem_iff

theorem sortedLats_getD_mem {l : List ℚ} {i : Nat} (h : i < l.length) :
    (sortedLats l).getD i 0 ∈ l := by
  have h' : i < (sortedLats l).length := by rw [length_sortedLats]; exact h
  rw [List.getD_eq_get _ _ h']
  exact mem_sortedLats.mp (List.get_mem _ _ _)

theorem sortedLats_getD_mono {l : List ℚ} {i j : Nat} (hij : i ≤ j)
    (hj : j < l.length) :
    (sortedLats l).getD i 0 ≤ (sortedLats l).getD j 0 := by
  have hj' : j < (sortedLats l).length := by rw [length_sortedLats]; exact hj
  have hi' : i < (sortedLats l).length := lt_of_le_of_lt hij hj'
  rw [List.getD_eq_get _ _ hi', List.getD_eq_get _ _ hj']
  exact (sorted_sortedLats l).rel_get_of_le
    (show (⟨i, hi'⟩ : Fin (sortedLats l).length) ≤ ⟨j, hj'⟩ from hij)

theorem pIndex_lt {n : Nat} (num : Nat) (hn : 1 ≤ n) (hnum : num < 100) :
    pIndex n num < n := by
  apply Nat.div_lt_of_lt_mul
  calc n * num < n * 100 := by
        exact mul_lt_mul_of_pos_left hnum hn
    _ = 100 * n := Nat.mul_comm n 100

theorem foldl_min_le_init (ys : List ℚ) (a : ℚ) : ys.foldl min a ≤ a := by
  induction ys generalizing a with
  | nil => exact le_refl a
  | cons y ys ih =>
    calc List.foldl min (min a y) ys ≤ min a y := ih (min a y)
      _ ≤ a := min_le_left a y

theorem foldl_min_le_mem {ys : List ℚ} {x : ℚ} (hx : x ∈ ys) (a : ℚ) :
    ys.foldl min a ≤ x := by
  induction ys generalizing a with
  | nil => exact absurd hx (List.not_mem_nil x)
  | cons y ys ih =>
    rcases List.mem_cons.mp hx with rfl | hm
    · calc List.foldl min (min a x) ys ≤ min a x := foldl_min_le_init ys _
        _ ≤ x := min_le_right a x
    · exact ih hm (min a y)

theorem foldl_min_mem (ys : List ℚ) (a : ℚ) :
    ys.foldl min a = a ∨ ys.foldl min a ∈ ys := by
  induction ys generalizing a with
  | nil => exact Or.inl rfl
  | cons y ys ih =>
    rcases ih (min a y) with h | h
    · rw [List.foldl_cons, h]
      rcases min_choice a y with h' | h'
      · exact Or.inl h'
      · refine Or.inr ?_
        rw [h']
        exact List.mem_cons_self y ys
    · exact Or.inr (List.mem_cons_of_mem y h)

theorem init_le_foldl_max (ys : List ℚ) (a : ℚ) : a ≤ ys.foldl max a := by
  induction ys generalizing a with
  | nil => exact le_refl a
  | cons y ys ih =>
    calc a ≤ max a y := le_max_left a y
      _ ≤ List.foldl max (max a y) ys := ih (max a y)

theorem mem_le_foldl_max {ys : List ℚ} {x : ℚ} (hx : x ∈ ys) (a : ℚ) :
    x ≤ ys.foldl max a := by
  induction ys generalizing a with
  | nil => exact absurd hx (List.not_mem_nil x)
  | cons y ys ih =>
    rcases List.mem_cons.mp hx with rfl | hm
    · calc x ≤ max a x := le_max_right a x
        _ ≤ List.foldl max (max a x) ys := init_le_foldl_max ys _
    · exact ih hm (max a y)

theorem foldl_max_mem (ys : List ℚ) (a : ℚ) :
    ys.foldl max a = a ∨ ys.foldl max a ∈ ys := by
  induction ys generalizing a with
  | nil => exact Or.inl rfl
  | cons y ys ih =>
    rcases ih (max a y) with h | h
    · rw [List.foldl_cons, h]
      rcases max_choice a y with h' | h'
      · exact Or.inl h'
      · refine Or.inr ?_
        rw [h']
        exact List.mem_cons_self y ys
    · exact Or.inr (List.mem_cons_of_mem y h)

theorem pyMin_le {l : List ℚ} {x : ℚ} (hx : x ∈ l) : pyMin l ≤ x := by
  cases l with
  | nil => exact absurd hx (List.not_mem_nil x)
  | cons y ys =>
    rcases List.mem_cons.mp hx with rfl | hm
    · exact foldl_min_le_init ys x
    · exact foldl_min_le_mem hm y

theorem le_pyMax {l : List ℚ} {x : ℚ} (hx : x ∈ l) : x ≤ pyMax l := by
  cases l with
  | nil => exact absurd hx (List.not_mem_nil x)
  | cons y ys =>
    rcases List.mem_cons.mp hx with rfl | hm
    · exact init_le_foldl_max ys x
    · exact mem_le_foldl_max hm y

theorem pyMin_mem {l : List ℚ} (h : l ≠ []) : pyMin l ∈ l := by
  cases l with
  | nil => exact absurd rfl h
  | cons y ys =>
    show ys.foldl min y ∈ y :: ys
    rcases foldl_min_mem ys y with h' | h'
    · rw [h']; exact List.mem_cons_self y ys
    · exact List.mem_cons_of_mem y h'

theorem pyMax_mem {l : List ℚ} (h : l ≠ []) : pyMax l ∈ l := by
  cases l with
  | nil => exact absurd rfl h
  | cons y ys =>
    show ys.foldl max y ∈ y :: ys
    rcases foldl_max_mem ys y with h' | h'
    · rw [h']; exact List.mem_cons_self y ys
    · exact List.mem_cons_of_mem y h'

theorem length_pos_rat {l : List ℚ} (h : l ≠ []) : (0 : ℚ) < l.length := by
  have : 0 < l.length := List.length_pos.mpr h
  exact_mod_cast this

theorem le_pyMean {l : List ℚ} (h : l ≠ []) {m : ℚ} (hm : ∀ x ∈ l, m ≤ x) :
    m ≤ pyMean l := by
  have hlen : (0 : ℚ) < l.length := length_pos_rat h
  have hs := List.card_nsmul_le_sum l m hm
  rw [nsmul_eq_mul] at hs
  rw [pyMean, le_div_iff hlen]
  calc m * l.length = (l.length : ℚ) * m := mul_comm _ _
    _ ≤ l.sum := hs

theorem pyMean_le {l : List ℚ} (h : l ≠ []) {m : ℚ} (hm : ∀ x ∈ l, x ≤ m) :
    pyMean l ≤ m := by
  have hlen : (0 : ℚ) < l.length := length_pos_rat h
  have hs := List.sum_le_card_nsmul l m hm
  rw [nsmul_eq_mul] at hs
  rw [pyMean, div_le_iff hlen]
  calc l.sum ≤ (l.length : ℚ) * m := hs
    _ = m * l.length := mul_comm _ _

theorem pyMedian_bounds {l : List ℚ} (h : l ≠ []) :
    pyMin l ≤ pyMedian l ∧ pyMedian l ≤ pyMax l := by
  have hn : 0 < l.length := List.length_pos.mpr h
  rw [pyMedian]
  by_cases hpar : l.length % 2 = 1
  · simp only [hpar, if_pos rfl]
    have hlt : l.length / 2 < l.length := Nat.div_lt_self hn (by norm_num)
    exact ⟨pyMin_le (sortedLats_getD_mem hlt), le_pyMax (sortedLats_getD_mem hlt)⟩
  · simp only [hpar, if_false]
    have hlt2 : l.length / 2 < l.length := Nat.div_lt_self hn (by norm_num)
    have hlt1 : l.length / 2 - 1 < l.length := lt_of_le_of_lt (Nat.sub_le _ _) hlt2
    have ha1 := pyMin_le (sortedLats_getD_mem hlt1)
    have ha2 := pyMin_le (sortedLats_getD_mem hlt2)
    have hb1 := le_pyMax (sortedLats_getD_mem hlt1)
    have hb2 := le_pyMax (sortedLats_getD_mem hlt2)
    constructor
    · linarith
    · linarith

theorem calculate_stats_eq {l : List ℚ} (h : l ≠ []) :
    calculate_stats l =
      { mean := pyMean l
        median := pyMedian l
        p95 := if l.length > 1 then (sortedLats l).getD (pIndex l.length 95) 0
               else (sortedLats l).getD 0 0
        p99 := if l.length > 1 then (sortedLats l).getD (pIndex l.length 99) 0
               else (sortedLats l).getD 0 0
        min_val := pyMin l
        max_val := pyMax l } := by
  rw [calculate_stats, if_neg h]

theorem calculate_stats_p95_eq {l : List ℚ} (h : l ≠ []) :
    (calculate_stats l).p95 = (sortedLats l).getD (pIndex l.length 95) 0 := by
  rw [calculate_stats_eq h]
  by_cases h1 : l.length > 1
  · simp only [if_pos h1]
  · have hn : l.length = 1 := by
      have := List.length_pos.mpr h
      omega
    simp only [if_neg h1, hn]
    norm_num [pIndex]

theorem calculate_stats_p99_eq {l : List ℚ} (h : l ≠ []) :
    (calculate_stats l).p99 = (sortedLats l).getD (pIndex l.length 99) 0 := by
  rw [calculate_stats_eq h]
  by_cases h1 : l.length > 1
  · simp only [if_pos h1]
  · have hn : l.length = 1 := by
      have := List.length_pos.mpr h
      omega
    simp only [if_neg h1, hn]
    norm_num [pIndex]

theorem calculate_stats_p95_mem {l : List ℚ} (h : l ≠ []) :
    (calculate_stats l).p95 ∈ l := by
  rw [calculate_stats_p95_eq h]
  exact sortedLats_getD_mem (pIndex_lt 95 (List.length_pos.mpr h) (by norm_num))

theorem calculate_stats_p99_mem {l : List ℚ} (h : l ≠ []) :
    (calculate_stats l).p99 ∈ l := by
  rw [calculate_stats_p99_eq h]
  exact sortedLats_getD_mem (pIndex_lt 99 (List.length_pos.mpr h) (by norm_num))

theorem calculate_stats_singleton (x : ℚ) :
    calculate_stats [x] = ⟨x, x, x, x, x, x⟩ := by
  have h : ([x] : List ℚ) ≠ [] := by simp
  rw [calculate_stats_eq h]
  have hs : sortedLats [x] = [x] := rfl
  simp [pyMean, pyMedian, pyMin, pyMax, hs, pIndex]

theorem pIndex_mono (n : Nat) : pIndex n 95 ≤ pIndex n 99 :=
  Nat.div_le_div_right (Nat.mul_le_mul_left n (by norm_num))

theorem ceil_shift_of_not_dvd {m : Nat} (h : ¬ (100 ∣ m)) :
    (m + 99) / 100 = m / 100 + 1 := by
  omega

theorem not_dvd_95 {n : Nat} (h : ¬ (20 ∣ n)) : ¬ (100 ∣ n * 95) := by
  omega

theorem not_dvd_99 {n : Nat} (h : ¬ (100 ∣ n)) : ¬ (100 ∣ n * 99) := by
  omega

/-- A concrete 20-element latency sample `[1, 2, ..., 20]`. -/
def sample20 : List ℚ :=
  [1, 2, 3, 4, 5, 6, 7, 8, 9, 10, 11, 12, 13, 14, 15, 16, 17, 18, 19, 20]

theorem sorted_sample20 : sample20.Sorted (· ≤ ·) := by
  norm_num [sample20, List.sorted_cons_cons]

theorem sortedLats_sample20 : sortedLats sample20 = sample20 :=
  List.Sorted.insertionSort_eq sorted_sample20

/-- C4: on an empty latency sequence, `calculate_stats` returns the
statistics record whose six fields are all zero, and does not fail
(it is a total function). -/
theorem calculate_stats_empty : calculate_stats [] = ⟨0, 0, 0, 0, 0, 0⟩ := rfl

/-- C10: for every non-empty sample of size `n`, the percentile indices
`int(n*0.95)` and `int(n*0.99)` are strictly less than `n` (they are
naturals, hence nonnegative), so indexing the sorted sample is in bounds:
the reported p95 and p99 are genuine elements of the sample and the
computation is total. -/
theorem calculate_stats_total (l : List ℚ) (h : l ≠ []) :
    pIndex l.length 95 < l.length ∧ pIndex l.length 99 < l.length ∧
    (calculate_stats l).p95 ∈ l ∧ (calculate_stats l).p99 ∈ l := by
  have hn : 1 ≤ l.length := List.length_pos.mpr h
  exact ⟨pIndex_lt 95 hn (by norm_num), pIndex_lt 99 hn (by norm_num),
    calculate_stats_p95_mem h, calculate_stats_p99_mem h⟩

/-- Witness for C10 at the concrete sample `[7]`. -/
theorem calculate_stats_total_witness :
    pIndex ([7] : List ℚ).length 95 < ([7] : List ℚ).length ∧
    pIndex ([7] : List ℚ).length 99 < ([7] : List ℚ).length ∧
    (calculate_stats [7]).p95 ∈ ([7] : List ℚ) ∧
    (calculate_stats [7]).p99 ∈ ([7] : List ℚ) :=
  calculate_stats_total [7] (List.cons_ne_nil 7 [])

/-- C3: for every non-empty sample, `min ≤ median ≤ max`,
`min ≤ mean ≤ max`, `p99 ≤ max`, `p95 ≤ p99` when the size is at least 2,
and for a singleton sample all six statistics equal the single value. -/
theorem calculate_stats_ordering (l : List ℚ) (h : l ≠ []) :
    (calculate_stats l).min_val ≤ (calculate_stats l).median ∧
    (calculate_stats l).median ≤ (calculate_stats l).max_val ∧
    (calculate_stats l).min_val ≤ (calculate_stats l).mean ∧
    (calculate_stats l).mean ≤ (calculate_stats l).max_val ∧
    (calculate_stats l).p99 ≤ (calculate_stats l).max_val ∧
    (2 ≤ l.length → (calculate_stats l).p95 ≤ (calculate_stats l).p99) ∧
    (∀ x : ℚ, l = [x] → calculate_stats l = ⟨x, x, x, x, x, x⟩) := by
  have hmed := pyMedian_bounds h
  have hmin_eq : (calculate_stats l).min_val = pyMin l := by
    rw [calculate_stats_eq h]
  have hmax_eq : (calculate_stats l).max_val = pyMax l := by
    rw [calculate_stats_eq h]
  have hmean_eq : (calculate_stats l).mean = pyMean l := by
    rw [calculate_stats_eq h]
  have hmed_eq : (calculate_stats l).median = pyMedian l := by
    rw [calculate_stats_eq h]
  refine ⟨?_, ?_, ?_, ?_, ?_, ?_, ?_⟩
  · rw [hmin_eq, hmed_eq]; exact hmed.1
  · rw [hmed_eq, hmax_eq]; exact hmed.2
  · rw [hmin_eq, hmean_eq]
    exact le_pyMean h (fun x hx => pyMin_le hx)
  · rw [hmean_eq, hmax_eq]
    exact pyMean_le h (fun x hx => le_pyMax hx)
  · rw [hmax_eq]
    exact le_pyMax (calculate_stats_p99_mem h)
  · intro h2
    rw [calculate_stats_p95_eq h, calculate_stats_p99_eq h]
    exact sortedLats_getD_mono (pIndex_mono l.length)
      (pIndex_lt 99 (List.length_pos.mpr h) (by norm_num))
  · intro x hx
    rw [hx]
    exact calculate_stats_singleton x

/-- Witness for C3 at the concrete sample `[3, 1]`. -/
theorem calculate_stats_ordering_witness :
    (calculate_stats [3, 1]).min_val ≤ (calculate_stats [3, 1]).median ∧
    (calculate_stats [3, 1]).median ≤ (calculate_stats [3, 1]).max_val ∧
    (calculate_stats [3, 1]).min_val ≤ (calculate_stats [3, 1]).mean ∧
    (calculate_stats [3, 1]).mean ≤ (calculate_stats [3, 1]).max_val ∧
    (calculate_stats [3, 1]).p99 ≤ (calculate_stats [3, 1]).max_val ∧
    (2 ≤ ([3, 1] : List ℚ).length →
      (calculate_stats [3, 1]).p95 ≤ (calculate_stats [3, 1]).p99) ∧
    (∀ x : ℚ, ([3, 1] : List ℚ) = [x] → calculate_stats [3, 1] = ⟨x, x, x, x, x, x⟩) :=
  calculate_stats_ordering [3, 1] (List.cons_ne_nil 3 [1])

/-- C1 counterexample: the ascending sample `[1, ..., 20]` is non-empty,
yet the code's p95 (the value `20` at 0-indexed position `int(20*0.95) = 19`)
differs from the spec's nearest-rank value at 1-indexed rank
`⌈20*0.95⌉ = 19` (which is `19`).  The nearest-rank claim fails whenever
`n * 0.95` is an integer. -/
theorem p95_ne_nearestRank_at_sample20 :
    sample20 ≠ [] ∧ (calculate_stats sample20).p95 ≠ nearestRank sample20 95 := by
  have h : sample20 ≠ [] := by simp [sample20]
  refine ⟨h, ?_⟩
  rw [calculate_stats_p95_eq h, nearestRank, sortedLats_sample20]
  norm_num [sample20, pIndex]

/-- C1 (amended): for every non-empty sample of size `n`, p95 and p99 equal
the values at 1-indexed ranks `⌊n*0.95⌋ + 1` and `⌊n*0.99⌋ + 1` of the
ascending-sorted sample; these coincide with the nearest-rank values at
ranks `⌈n*0.95⌉` and `⌈n*0.99⌉` whenever `n*0.95` (resp. `n*0.99`) is not
an integer, i.e. whenever `20 ∤ n` (resp. `100 ∤ n`); for a sample of
size 1 both equal the sole value. -/
theorem p95_p99_rank (l : List ℚ) (h : l ≠ []) :
    (calculate_stats l).p95 = rankValue l (pIndex l.length 95 + 1) ∧
    (calculate_stats l).p99 = rankValue l (pIndex l.length 99 + 1) ∧
    (¬ (20 ∣ l.length) → (calculate_stats l).p95 = nearestRank l 95) ∧
    (¬ (100 ∣ l.length) → (calculate_stats l).p99 = nearestRank l 99) ∧
    (∀ x : ℚ, l = [x] →
      (calculate_stats l).p95 = x ∧ (calculate_stats l).p99 = x) := by
  refine ⟨?_, ?_, ?_, ?_, ?_⟩
  · rw [calculate_stats_p95_eq h, rankValue, Nat.add_sub_cancel]
  · rw [calculate_stats_p99_eq h, rankValue, Nat.add_sub_cancel]
  · intro hd
    rw [calculate_stats_p95_eq h, nearestRank,
      ceil_shift_of_not_dvd (not_dvd_95 hd), Nat.add_sub_cancel, pIndex]
  · intro hd
    rw [calculate_stats_p99_eq h, nearestRank,
      ceil_shift_of_not_dvd (not_dvd_99 hd), Nat.add_sub_cancel, pIndex]
  · intro x hx
    rw [hx, calculate_stats_singleton]
    exact ⟨rfl, rfl⟩

/-- Witness for the amended C1 at the concrete sample `[3, 1]`. -/
theorem p95_p99_rank_witness :
    (calculate_stats [3, 1]).p95 = rankValue [3, 1] (pIndex ([3, 1] : List ℚ).length 95 + 1) ∧
    (calculate_stats [3, 1]).p99 = rankValue [3, 1] (pIndex ([3, 1] : List ℚ).length 99 + 1) ∧
    (¬ (20 ∣ ([3, 1] : List ℚ).length) → (calculate_stats [3, 1]).p95 = nearestRank [3, 1] 95) ∧
    (¬ (100 ∣ ([3, 1] : List ℚ).length) → (calculate_stats [3, 1]).p99 = nearestRank [3, 1] 99) ∧
    (∀ x : ℚ, ([3, 1] : List ℚ) = [x] →
      (calculate_stats [3, 1]).p95 = x ∧ (calculate_stats [3, 1]).p99 = x) :=
  p95_p99_rank [3, 1] (List.cons_ne_nil 3 [1])

/-! ## Consistency checker (`check_consistency`, analyze.py lines 153-190)

A node's dump (a Python dict key → value) is modelled as an association
list `List (String × String)`; a dict's keys are unique, and `dictGet`
returns the value at the first (hence only) occurrence of a key. -/

/-- Dictionary lookup `d[k]` / `k in d` on a dump. -/
def dictGet (k : String) : List (String × String) → Option String
  | [] => none
  | (q, w) :: rest => if k = q then some w else dictGet k rest

/-- The three accumulators of the classification loop (lines 166-176):
`matching_count`, `mismatched_values`, `missing_keys`, each in the
leader's iteration order. -/
structure Classification where
  matching_count : Nat
  mismatched_values : List String
  missing_keys : List String
deriving Repr, DecidableEq

/-- The classification loop over the leader's keys (lines 170-176): a key
absent from the follower is missing; present with equal value, matching;
present with a different value, mismatched. -/
def classify (follower : List (String × String)) :
    List (String × String) → Classification
  | [] => ⟨0, [], []⟩
  | (k, v) :: rest =>
    let r := classify follower rest
    match dictGet k follower with
    | none => ⟨r.matching_count, r.mismatched_values, k :: r.missing_keys⟩
    | some w =>
      if v = w then ⟨r.matching_count + 1, r.mismatched_values, r.missing_keys⟩
      else ⟨r.matching_count, k :: r.mismatched_values, r.missing_keys⟩

/-- The per-follower record appended at lines 180-188. -/
structure FollowerReport where
  keys : Nat
  matches_leader : Bool
  matching_count : Nat
  mismatched_values : Nat
  missing_keys : Nat
  mismatched_examples : List String
deriving Repr, DecidableEq

/-- One iteration of the follower loop of `check_consistency`
(lines 162-188): classify the leader's keys against one follower dump and
package counts, up to 3 example mismatched keys, and the consistency
flag `len(mismatched) == 0 and len(missing) == 0` (line 178). -/
def check_follower (leader follower : List (String × String)) : FollowerReport :=
  let c := classify follower leader
  { keys := follower.length
    matches_leader := (c.mismatched_values.length == 0) && (c.missing_keys.length == 0)
    matching_count := c.matching_count
    mismatched_values := c.mismatched_values.length
    missing_keys := c.missing_keys.length
    mismatched_examples := c.mismatched_values.take 3 }

/-- The full consistency report: leader key count plus one record per
configured follower, in order (lines 157-190). -/
structure ConsistencyReport where
  leader_keys : Nat
  followers : List FollowerReport
deriving Repr, DecidableEq

/-- `check_consistency` over the leader's dump and the followers' dumps. -/
def check_consistency (leader : List (String × String))
    (followerDumps : List (List (String × String))) : ConsistencyReport :=
  { leader_keys := leader.length
    followers := followerDumps.map (check_follower leader) }

/-- A leader entry whose key is absent from the follower. -/
def keyMissing (follower : List (String × String)) (p : String × String) : Bool :=
  (dictGet p.1 follower).isNone

/-- A leader entry whose key is present in the follower with a different value. -/
def keyMismatched (follower : List (String × String)) (p : String × String) : Bool :=
  match dictGet p.1 follower with
  | some w => decide (p.2 ≠ w)
  | none => false

/-- A leader entry whose key is present in the follower with an equal value. -/
def keyMatching (follower : List (String × String)) (p : String × String) : Bool :=
  match dictGet p.1 follower with
  | some w => decide (p.2 = w)
  | none => false

theorem classify_missing (follower : List (String × String)) :
    ∀ leader : List (String × String),
      (classify follower leader).missing_keys
        = (leader.filter (keyMissing follower)).map Prod.fst
  | [] => rfl
  | (k, v) :: rest => by
    simp only [classify]
    cases hd : dictGet k follower with
    | none =>
      simp [List.filter_cons, keyMissing, hd, classify_missing follower rest]
    | some w =>
      by_cases hv : v = w
      · simp [List.filter_cons, keyMissing, hd, hv, classify_missing follower rest]
      · simp [List.filter_cons, keyMissing, hd, hv, classify_missing follower rest]

theorem classify_mismatched (follower : List (String × String)) :
    ∀ leader : List (String × String),
      (classify follower leader).mismatched_values
        = (leader.filter (keyMismatched follower)).map Prod.fst
  | [] => rfl
  | (k, v) :: rest => by
    simp only [classify]
    cases hd : dictGet k follower with
    | none =>
      simp [List.filter_cons, keyMismatched, hd, classify_mismatched follower rest]
    | some w =>
      by_cases hv : v = w
      · simp [List.filter_cons, keyMismatched, hd, hv, classify_mismatched follower rest]
      · simp [List.filter_cons, keyMismatched, hd, hv, classify_mismatched follower rest]

theorem classify_matching (follower : List (String × String)) :
    ∀ leader : List (String × String),
      (classify follower leader).matching_count
        = (leader.filter (keyMatching follower)).length
  | [] => rfl
  | (k, v) :: rest => by
    simp only [classify]
    cases hd : dictGet k follower with
    | none =>
      simp [List.filter_cons, keyMatching, hd, classify_matching follower rest]
    | some w =>
      by_cases hv : v = w
      · simp [List.filter_cons, keyMatching, hd, hv, classify_matching follower rest]
      · simp [List.filter_cons, keyMatching, hd, hv, classify_matching follower rest]

theorem classify_sum (follower : List (String × String)) :
    ∀ leader : List (String × String),
      (classify follower leader).matching_count
        + (classify follower leader).mismatched_values.length
        + (classify follower leader).missing_keys.length = leader.length
  | [] => rfl
  | (k, v) :: rest => by
    have ih := classify_sum follower rest
    simp only [classify]
    cases hd : dictGet k follower with
    | none => simp only [List.length_cons]; omega
    | some w =>
      by_cases hv : v = w
      · simp only [if_pos hv, List.length_cons]; omega
      · simp only [if_neg hv, List.length_cons]; omega

theorem missing_mismatched_disjoint (follower leader : List (String × String))
    (k : String) :
    ¬ (k ∈ (classify follower leader).missing_keys ∧
       k ∈ (classify follower leader).mismatched_values) := by
  rw [classify_missing, classify_mismatched]
  rintro ⟨h1, h2⟩
  obtain ⟨p, hp, rfl⟩ := List.mem_map.mp h1
  obtain ⟨q, hq, hqk⟩ := List.mem_map.mp h2
  have hp' := List.of_mem_filter hp
  have hq' := List.of_mem_filter hq
  rw [keyMissing, Option.isNone_iff_eq_none] at hp'
  rw [keyMismatched, hqk, hp'] at hq'
  exact Bool.false_ne_true hq'

/-- C2: the consistency checker classifies each leader key into exactly one
of matching / mismatched / missing: the three counts partition the leader's
key set (they sum to the leader key count), the missing keys are exactly the
leader keys absent from the follower, the mismatched keys are exactly the
leader keys present with a different value, the matching count counts
exactly the leader keys present with an equal value, and no key is both
missing and mismatched. -/
theorem check_follower_partition (leader follower : List (String × String)) :
    (check_follower leader follower).matching_count
      + (check_follower leader follower).mismatched_values
      + (check_follower leader follower).missing_keys = leader.length ∧
    (classify follower leader).missing_keys
      = (leader.filter (keyMissing follower)).map Prod.fst ∧
    (classify follower leader).mismatched_values
      = (leader.filter (keyMismatched follower)).map Prod.fst ∧
    (classify follower leader).matching_count
      = (leader.filter (keyMatching follower)).length ∧
    ∀ k : String, ¬ (k ∈ (classify follower leader).missing_keys ∧
      k ∈ (classify follower leader).mismatched_values) :=
  ⟨classify_sum follower leader, classify_missing follower leader,
    classify_mismatched follower leader, classify_matching follower leader,
    missing_mismatched_disjoint follower leader⟩

theorem classify_congr {f1 f2 : List (String × String)} :
    ∀ {leader : List (String × String)},
      (∀ k ∈ leader.map Prod.fst, dictGet k f1 = dictGet k f2) →
      classify f1 leader = classify f2 leader
  | [], _ => rfl
  | (k, v) :: rest, h => by
    have hk : dictGet k f1 = dictGet k f2 := by
      apply h
      simp
    have hrest : ∀ q ∈ rest.map Prod.fst, dictGet q f1 = dictGet q f2 := by
      intro q hq
      apply h
      simp only [List.map_cons, List.mem_cons]
      exact Or.inr hq
    simp only [classify, classify_congr hrest, hk]

/-- C7: two follower dumps that agree (presence and value) on every key of
the leader dump yield the same matching count, the same mismatched and
missing counts, the same example mismatched keys and the same
fully-consistent flag: follower keys absent from the leader are invisible
to the check. -/
theorem check_follower_ext (leader f1 f2 : List (String × String))
    (h : ∀ k ∈ leader.map Prod.fst, dictGet k f1 = dictGet k f2) :
    (check_follower leader f1).matching_count
      = (check_follower leader f2).matching_count ∧
    (check_follower leader f1).mismatched_values
      = (check_follower leader f2).mismatched_values ∧
    (check_follower leader f1).missing_keys
      = (check_follower leader f2).missing_keys ∧
    (check_follower leader f1).mismatched_examples
      = (check_follower leader f2).mismatched_examples ∧
    (check_follower leader f1).matches_leader
      = (check_follower leader f2).matches_leader := by
  have hc : classify f1 leader = classify f2 leader := classify_congr h
  simp only [check_follower, hc]
  exact ⟨trivial, trivial, trivial, trivial, trivial⟩

/-- Witness for C7: the follower dumps `{a: 1}` and `{a: 1, z: 9}` agree on
the only leader key `a`, and the checker reports the same record for both
(the extra key `z` is invisible). -/
theorem check_follower_ext_witness :
    (check_follower [("a", "1")] [("a", "1")]).matching_count
      = (check_follower [("a", "1")] [("a", "1"), ("z", "9")]).matching_count ∧
    (check_follower [("a", "1")] [("a", "1")]).mismatched_values
      = (check_follower [("a", "1")] [("a", "1"), ("z", "9")]).mismatched_values ∧
    (check_follower [("a", "1")] [("a", "1")]).missing_keys
      = (check_follower [("a", "1")] [("a", "1"), ("z", "9")]).missing_keys ∧
    (check_follower [("a", "1")] [("a", "1")]).mismatched_examples
      = (check_follower [("a", "1")] [("a", "1"), ("z", "9")]).mismatched_examples ∧
    (check_follower [("a", "1")] [("a", "1")]).matches_leader
      = (check_follower [("a", "1")] [("a", "1"), ("z", "9")]).matches_leader :=
  check_follower_ext [("a", "1")] [("a", "1")] [("a", "1"), ("z", "9")]
    (by decide)

/-! ## Write client (`write_key`, analyze.py lines 66-85) and
bounded concurrent write driver (`run_concurrent_writes`, lines 88-120) -/

/-- Outcome of reading the response body (lines 79-80): the body either
fails to parse as JSON (raises, caught at line 83) or parses, in which case
the truthiness of `data.get("success")` is a boolean. -/
inductive BodyResult where
  | malformed
  | json (success : Bool)
deriving Repr, DecidableEq

/-- Transport-level outcome of `POST /set`: an exception (caught at
line 83) or a response with an HTTP status and a body. -/
inductive HttpResult where
  | exn
  | resp (status : Nat) (body : BodyResult)
deriving Repr, DecidableEq

/-- `write_key` (lines 66-85), as a function of the elapsed duration
measured at line 77 and the transport outcome: the elapsed duration when
the status is 200 and the body signals success, `-1` in every other case.
All exceptions are caught (lines 83-85), so the function is total. -/
def write_key (elapsed : ℚ) (r : HttpResult) : ℚ :=
  match r with
  | .exn => -1
  | .resp status body =>
    if status = 200 then
      match body with
      | .malformed => -1
      | .json success => if success then elapsed else -1
    else -1

/-- A response classified successful: OK transport status and a body that
explicitly signals success. -/
def isSuccess (r : HttpResult) : Bool :=
  match r with
  | .resp status (.json success) => (status == 200) && success
  | _ => false

theorem write_key_eq (elapsed : ℚ) (r : HttpResult) :
    write_key elapsed r = if isSuccess r then elapsed else -1 := by
  cases r with
  | exn => rfl
  | resp status body =>
    cases body with
    | malformed =>
      by_cases hs : status = 200
      · subst hs; rfl
      · simp [write_key, isSuccess, hs]
    | json success =>
      by_cases hs : status = 200
      · subst hs; cases success <;> rfl
      · simp [write_key, isSuccess, hs]

theorem isSuccess_iff {r : HttpResult} :
    isSuccess r = true ↔ r = .resp 200 (.json true) := by
  cases r with
  | exn => simp [isSuccess]
  | resp status body =>
    cases body with
    | malformed => simp [isSuccess]
    | json success => simp [isSuccess, Bool.and_eq_true, beq_iff_eq]

/-- C5: the write operation returns the elapsed duration exactly when the
transport status is 200 and the body explicitly signals success; every
other outcome (non-OK status, malformed body, transport exception) yields
the failure marker `-1`, and the operation always yields a value (no
exception propagates to the caller). -/
theorem write_key_success_iff (elapsed : ℚ) (r : HttpResult) (h : 0 ≤ elapsed) :
    (write_key elapsed r = elapsed ↔ r = .resp 200 (.json true)) ∧
    (r ≠ .resp 200 (.json true) → write_key elapsed r = -1) ∧
    (write_key elapsed r = elapsed ∨ write_key elapsed r = -1) := by
  have hne : elapsed ≠ -1 := by intro he; rw [he] at h; norm_num at h
  rw [write_key_eq]
  by_cases hs : isSuccess r = true
  · have hr := isSuccess_iff.mp hs
    rw [if_pos hs]
    exact ⟨⟨fun _ => hr, fun _ => rfl⟩, fun hcon => absurd hr hcon, Or.inl rfl⟩
  · have hr : r ≠ .resp 200 (.json true) := fun he => hs (isSuccess_iff.mpr he)
    rw [if_neg hs]
    exact ⟨⟨fun he => absurd he.symm hne, fun he => absurd he hr⟩,
      fun _ => rfl, Or.inr rfl⟩

/-- Witness for C5 at elapsed time 2 and a successful response. -/
theorem write_key_success_iff_witness :
    (write_key 2 (.resp 200 (.json true)) = 2 ↔
      HttpResult.resp 200 (.json true) = .resp 200 (.json true)) ∧
    (HttpResult.resp 200 (.json true) ≠ .resp 200 (.json true) →
      write_key 2 (.resp 200 (.json true)) = -1) ∧
    (write_key 2 (.resp 200 (.json true)) = 2 ∨
      write_key 2 (.resp 200 (.json true)) = -1) :=
  write_key_success_iff 2 (.resp 200 (.json true)) (by norm_num)

/-- One write task of the driver: the elapsed duration its timer measures
and the transport outcome of its request. -/
structure WriteAttempt where
  elapsed : ℚ
  resp : HttpResult
deriving Repr, DecidableEq

/-- The result-collection loop of `run_concurrent_writes` (lines 116-118):
keep, in order, the results with `latency >= 0`. -/
def collectSuccessful (results : List ℚ) : List ℚ :=
  results.foldl (fun acc latency => if 0 ≤ latency then acc ++ [latency] else acc) []

/-- `run_concurrent_writes` (lines 88-120) as a function of the per-task
write attempts, in task order (`asyncio.gather` returns results in task
order): apply `write_key` to every task, then collect the results
classified successful. -/
def run_concurrent_writes (attempts : List WriteAttempt) : List ℚ :=
  collectSuccessful (attempts.map (fun a => write_key a.elapsed a.resp))

theorem collectSuccessful_eq_filter (results : List ℚ) :
    collectSuccessful results = results.filter (fun x => decide (0 ≤ x)) := by
  suffices h : ∀ acc : List ℚ,
      results.foldl (fun acc latency =>
        if 0 ≤ latency then acc ++ [latency] else acc) acc
        = acc ++ results.filter (fun x => decide (0 ≤ x)) by
    simpa [collectSuccessful] using h []
  induction results with
  | nil => intro acc; simp
  | cons x xs ih =>
    intro acc
    by_cases hx : 0 ≤ x
    · simp [List.foldl_cons, if_pos hx, ih, List.filter_cons, hx]
    · simp [List.foldl_cons, if_neg hx, ih, List.filter_cons, hx]

/-- C6: the sample returned by the write driver is exactly the list of
elapsed durations of the attempts classified successful, in order: every
successful write's duration is included and every failed write is
excluded. -/
theorem run_concurrent_writes_successes (attempts : List WriteAttempt)
    (h : ∀ a ∈ attempts, 0 ≤ a.elapsed) :
    run_concurrent_writes attempts
      = (attempts.filter (fun a => isSuccess a.resp)).map (fun a => a.elapsed) := by
  rw [run_concurrent_writes, collectSuccessful_eq_filter]
  induction attempts with
  | nil => rfl
  | cons a rest ih =>
    have ha : 0 ≤ a.elapsed := h a (List.mem_cons_self a rest)
    have hrest : ∀ b ∈ rest, 0 ≤ b.elapsed :=
      fun b hb => h b (List.mem_cons_of_mem a hb)
    have ihr := ih hrest
    simp only [List.map_cons, List.filter_cons]
    rw [write_key_eq]
    by_cases hs : isSuccess a.resp = true
    · rw [if_pos hs, hs]
      have hkeep : decide (0 ≤ a.elapsed) = true := decide_eq_true ha
      simp only [hkeep, List.filter_cons, if_pos rfl]
      simp [List.filter, hkeep, ihr]
    · rw [if_neg hs]
      have hsf : isSuccess a.resp = false := Bool.eq_false_iff.mpr hs
      have hdrop : decide ((0 : ℚ) ≤ -1) = false := by norm_num
      simp [List.filter, hdrop, hsf, ihr]

/-- Witness for C6: one successful write of duration 2 and one failed
write; the returned sample is exactly the successful duration. -/
theorem run_concurrent_writes_successes_witness :
    run_concurrent_writes [⟨2, .resp 200 (.json true)⟩, ⟨3, .exn⟩]
      = (([⟨2, .resp 200 (.json true)⟩, ⟨3, .exn⟩] : List WriteAttempt).filter
          (fun a => isSuccess a.resp)).map (fun a => a.elapsed) :=
  run_concurrent_writes_successes [⟨2, .resp 200 (.json true)⟩, ⟨3, .exn⟩] (by
    intro a ha
    simp only [List.mem_cons, List.not_mem_nil, or_false] at ha
    rcases ha with rfl | rfl
    · norm_num
    · norm_num)

/-! ## Quorum-sweep orchestrator (`run_analysis`, analyze.py lines 193-258) -/

/-- One iteration of the sweep loop body (lines 204-232) acting on the
accumulated `all_stats`. -/
def sweepStep (setOk : Nat → Bool) (attempts : Nat → List WriteAttempt)
    (all_stats : List (Nat × LatencyStats)) (quorum : Nat) :
    List (Nat × LatencyStats) :=
  if setOk quorum then
    let latencies := run_concurrent_writes (attempts quorum)
    if latencies.isEmpty then all_stats
    else all_stats ++ [(quorum, calculate_stats latencies)]
  else all_stats

/-- The quorum sweep of `run_analysis` (lines 204-232) as a fold over the
configured quorum values.  `setOk q` is the outcome of `set_quorum` for
value `q` (a failure `continue`s to the next value, lines 208-210);
`attempts q` are the write tasks dispatched for value `q`. -/
def run_analysis (quorumValues : List Nat) (setOk : Nat → Bool)
    (attempts : Nat → List WriteAttempt) : List (Nat × LatencyStats) :=
  quorumValues.foldl (sweepStep setOk attempts) []

theorem sweepStep_skip {setOk : Nat → Bool} {attempts : Nat → List WriteAttempt}
    {q : Nat} (acc : List (Nat × LatencyStats)) (hok : setOk q = false) :
    sweepStep setOk attempts acc q = acc := by
  simp [sweepStep, hok]

theorem sweepStep_empty {setOk : Nat → Bool} {attempts : Nat → List WriteAttempt}
    {q : Nat} (acc : List (Nat × LatencyStats)) (hok : setOk q = true)
    (hemp : (run_concurrent_writes (attempts q)).isEmpty = true) :
    sweepStep setOk attempts acc q = acc := by
  simp [sweepStep, hok, hemp]

theorem sweepStep_record {setOk : Nat → Bool} {attempts : Nat → List WriteAttempt}
    {q : Nat} (acc : List (Nat × LatencyStats)) (hok : setOk q = true)
    (hemp : (run_concurrent_writes (attempts q)).isEmpty = false) :
    sweepStep setOk attempts acc q
      = acc ++ [(q, calculate_stats (run_concurrent_writes (attempts q)))] := by
  simp [sweepStep, hok, hemp]

theorem run_analysis_eq_filterMap (qs : List Nat) (setOk : Nat → Bool)
    (attempts : Nat → List WriteAttempt) :
    run_analysis qs setOk attempts
      = (qs.filter (fun q =>
          setOk q && !(run_concurrent_writes (attempts q)).isEmpty)).map
          (fun q => (q, calculate_stats (run_concurrent_writes (attempts q)))) := by
  suffices h : ∀ acc : List (Nat × LatencyStats),
      qs.foldl (sweepStep setOk attempts) acc
        = acc ++ (qs.filter (fun q =>
            setOk q && !(run_concurrent_writes (attempts q)).isEmpty)).map
            (fun q => (q, calculate_stats (run_concurrent_writes (attempts q)))) by
    simpa [run_analysis] using h []
  induction qs with
  | nil => intro acc; simp
  | cons q rest ih =>
    intro acc
    rw [List.foldl_cons, List.filter_cons]
    cases hok : setOk q with
    | false =>
      rw [sweepStep_skip acc hok, ih acc]
      simp [hok]
    | true =>
      cases hemp : (run_concurrent_writes (attempts q)).isEmpty with
      | true =>
        rw [sweepStep_empty acc hok hemp, ih acc]
        simp [hok, hemp]
      | false =>
        rw [sweepStep_record acc hok hemp,
          ih (acc ++ [(q, calculate_stats (run_concurrent_writes (attempts q)))])]
        simp [hok, hemp]

/-- C8: a quorum value whose `set_quorum` fails gets no entry in the
results and does not stop the sweep: the results are exactly (in sweep
order) the entries for the configured values whose quorum was set and
whose driver collected a non-empty latency sample; every recorded entry
holds the stats of its value's sample; and, provided elapsed times are
nonnegative, a configured value has an entry exactly when its quorum was
set and at least one of its writes succeeded. -/
theorem run_analysis_spec (qs : List Nat) (setOk : Nat → Bool)
    (attempts : Nat → List WriteAttempt)
    (hel : ∀ q : Nat, ∀ a ∈ attempts q, 0 ≤ a.elapsed) :
    run_analysis qs setOk attempts
      = (qs.filter (fun q =>
          setOk q && !(run_concurrent_writes (attempts q)).isEmpty)).map
          (fun q => (q, calculate_stats (run_concurrent_writes (attempts q)))) ∧
    (∀ (q : Nat) (s : LatencyStats), (q, s) ∈ run_analysis qs setOk attempts →
      q ∈ qs ∧ setOk q = true ∧ run_concurrent_writes (attempts q) ≠ [] ∧
      s = calculate_stats (run_concurrent_writes (attempts q))) ∧
    (∀ q ∈ qs, ((∃ s, (q, s) ∈ run_analysis qs setOk attempts) ↔
      setOk q = true ∧ ∃ a ∈ attempts q, isSuccess a.resp = true)) := by
  have heq := run_analysis_eq_filterMap qs setOk attempts
  have hmem : ∀ (q : Nat) (s : LatencyStats),
      (q, s) ∈ run_analysis qs setOk attempts →
      q ∈ qs ∧ setOk q = true ∧ run_concurrent_writes (attempts q) ≠ [] ∧
      s = calculate_stats (run_concurrent_writes (attempts q)) := by
    intro q s hqs
    rw [heq] at hqs
    obtain ⟨q', hq', heq'⟩ := List.mem_map.mp hqs
    have h1 : q' = q := congrArg Prod.fst heq'
    subst h1
    have h2 : s = calculate_stats (run_concurrent_writes (attempts q')) :=
      (congrArg Prod.snd heq').symm
    obtain ⟨hin, hp⟩ := List.mem_filter.mp hq'
    obtain ⟨hok, hne⟩ : setOk q' = true ∧
        (!(run_concurrent_writes (attempts q')).isEmpty) = true := by
      simpa using hp
    refine ⟨hin, hok, ?_, h2⟩
    intro hnil
    rw [hnil] at hne
    simp at hne
  refine ⟨heq, hmem, ?_⟩
  intro q hq
  constructor
  · rintro ⟨s, hs⟩
    obtain ⟨-, hok, hne, -⟩ := hmem q s hs
    rw [run_concurrent_writes_successes (attempts q) (hel q)] at hne
    refine ⟨hok, ?_⟩
    by_contra hno
    push_neg at hno
    apply hne
    rw [List.map_eq_nil, List.filter_eq_nil]
    intro a ha
    exact fun ht => (hno a ha) ht
  · rintro ⟨hok, a, ha, hsucc⟩
    refine ⟨calculate_stats (run_concurrent_writes (attempts q)), ?_⟩
    rw [heq]
    apply List.mem_map.mpr
    refine ⟨q, List.mem_filter.mpr ⟨hq, ?_⟩, rfl⟩
    have hne : run_concurrent_writes (attempts q) ≠ [] := by
      rw [run_concurrent_writes_successes (attempts q) (hel q)]
      intro hmapnil
      rw [List.map_eq_nil, List.filter_eq_nil] at hmapnil
      exact hmapnil a ha hsucc
    have hemp : (run_concurrent_writes (attempts q)).isEmpty = false :=
      Bool.eq_false_iff.mpr (fun h => hne (List.isEmpty_iff.mp h))
    simp [hok, hemp]

/-- A concrete sweep configuration: setting quorum 2 fails, every other
value succeeds. -/
def wSetOk : Nat → Bool := fun q => q != 2

/-- A concrete write workload: one write that succeeds in 2 time units. -/
def wAttempts : Nat → List WriteAttempt := fun _ => [⟨2, .resp 200 (.json true)⟩]

/-- Witness for C8 at the sweep `[1, 2, 3]` where setting quorum 2 fails. -/
theorem run_analysis_spec_witness :
    (run_analysis [1, 2, 3] wSetOk wAttempts
      = (([1, 2, 3] : List Nat).filter (fun q =>
          wSetOk q && !(run_concurrent_writes (wAttempts q)).isEmpty)).map
          (fun q => (q, calculate_stats (run_concurrent_writes (wAttempts q))))) ∧
    (∀ (q : Nat) (s : LatencyStats),
      (q, s) ∈ run_analysis [1, 2, 3] wSetOk wAttempts →
      q ∈ [1, 2, 3] ∧ wSetOk q = true ∧
      run_concurrent_writes (wAttempts q) ≠ [] ∧
      s = calculate_stats (run_concurrent_writes (wAttempts q))) ∧
    (∀ q ∈ [1, 2, 3],
      ((∃ s, (q, s) ∈ run_analysis [1, 2, 3] wSetOk wAttempts) ↔
        wSetOk q = true ∧ ∃ a ∈ wAttempts q, isSuccess a.resp = true)) :=
  run_analysis_spec [1, 2, 3] wSetOk wAttempts (by
    intro q a ha
    simp only [wAttempts, List.mem_singleton] at ha
    subst ha
    norm_num)

/-! ## Concurrency model of the bounded write driver (C9)

Every task of `run_concurrent_writes` runs `async with semaphore` (line
102) around `write_key`, whose latency timer starts at line 71 (the first
statement after the slot is acquired, with no suspension in between) and
stops at line 77, before the `async with` block exits and releases the
slot.  asyncio is cooperative multiplexing, so an execution is an
arbitrary interleaving of the per-task steps below; the semaphore admits
an acquire only while fewer than `c` tasks hold a slot. -/

/-- Control point of one write task. -/
inductive Phase where
  | ready
  | acquired
  | timing
  | finished
  | released
deriving Repr, DecidableEq

/-- Does a task at this control point hold a semaphore slot? -/
def holdsSlot : Phase → Bool
  | .acquired => true
  | .timing => true
  | .finished => true
  | _ => false

/-- Is a task at this control point inside its timed region
(between `start = time.perf_counter()` at line 71 and the computation of
`elapsed` at line 77)? -/
def inTimedRegion : Phase → Bool
  | .timing => true
  | _ => false

/-- Number of semaphore slots currently held. -/
def holders (s : List Phase) : Nat := s.countP holdsSlot

/-- Number of tasks currently inside their timed region. -/
def timedCount (s : List Phase) : Nat := s.countP inTimedRegion

/-- One cooperative step of the system of write tasks.  A task acquires a
slot only while fewer than `c` are held (`asyncio.Semaphore(concurrency)`,
line 98), starts its timer only after acquiring (lines 102, 71), stops it
before releasing (lines 77, 102), and releases only after stopping. -/
inductive Step (c : Nat) : List Phase → List Phase → Prop
  | acquire (s : List Phase) (i : Nat) (hi : s.get? i = some .ready)
      (hc : holders s < c) : Step c s (s.set i .acquired)
  | startTimer (s : List Phase) (i : Nat) (hi : s.get? i = some .acquired) :
      Step c s (s.set i .timing)
  | stopTimer (s : List Phase) (i : Nat) (hi : s.get? i = some .timing) :
      Step c s (s.set i .finished)
  | release (s : List Phase) (i : Nat) (hi : s.get? i = some .finished) :
      Step c s (s.set i .released)

/-- States reachable from `t` just-created tasks under concurrency cap `c`. -/
def Reachable (c t : Nat) (s : List Phase) : Prop :=
  Relation.ReflTransGen (Step c) (List.replicate t .ready) s

theorem countP_set (p : Phase → Bool) :
    ∀ (s : List Phase) (i : Nat) (x y : Phase), s.get? i = some y →
      (s.set i x).countP p + (if p y then 1 else 0)
        = s.countP p + (if p x then 1 else 0)
  | [], i, x, y, h => by simp at h
  | a :: s, 0, x, y, h => by
    injection h with h
    subst h
    simp only [List.set_cons_zero, List.countP_cons]
    omega
  | a :: s, i + 1, x, y, h => by
    have hrec := countP_set p s i x y h
    simp only [List.set_cons_succ, List.countP_cons]
    omega

theorem holders_le_of_step {c : Nat} {s s' : List Phase} (hstep : Step c s s')
    (hinv : holders s ≤ c) : holders s' ≤ c := by
  cases hstep with
  | acquire i hi hc =>
    have h := countP_set holdsSlot s i .acquired .ready hi
    simp [holdsSlot] at h
    unfold holders at *
    omega
  | startTimer i hi =>
    have h := countP_set holdsSlot s i .timing .acquired hi
    simp [holdsSlot] at h
    unfold holders at *
    omega
  | stopTimer i hi =>
    have h := countP_set holdsSlot s i .finished .timing hi
    simp [holdsSlot] at h
    unfold holders at *
    omega
  | release i hi =>
    have h := countP_set holdsSlot s i .released .finished hi
    simp [holdsSlot] at h
    unfold holders at *
    omega

theorem holders_replicate (t : Nat) :
    holders (List.replicate t Phase.ready) = 0 := by
  induction t with
  | zero => rfl
  | succ n ih =>
    rw [List.replicate_succ]
    unfold holders at ih ⊢
    rw [List.countP_cons]
    simp [holdsSlot, ih]

theorem holders_le_of_reachable {c t : Nat} {s : List Phase}
    (h : Reachable c t s) : holders s ≤ c := by
  induction h with
  | refl => rw [holders_replicate]; exact Nat.zero_le c
  | tail hr hstep ih => exact holders_le_of_step hstep ih

theorem timedCount_le_holders (s : List Phase) : timedCount s ≤ holders s := by
  induction s with
  | nil => exact le_refl 0
  | cons a s ih =>
    unfold timedCount holders at ih ⊢
    rw [List.countP_cons, List.countP_cons]
    have hle : (if inTimedRegion a then 1 else 0)
        ≤ (if holdsSlot a then 1 else 0) := by
      cases a <;> simp [inTimedRegion, holdsSlot]
    omega

/-- C9: in every state reachable under concurrency cap `c` (for any task
count `t`), at most `c` tasks are inside their timed region
simultaneously; moreover every task whose timer is running holds a
semaphore slot — the timer starts only after the slot is acquired and
stops before it is released, so slot-wait time is excluded from the
measured latency. -/
theorem timed_region_bounded {c t : Nat} {s : List Phase}
    (h : Reachable c t s) :
    timedCount s ≤ c ∧
    ∀ ph ∈ s, inTimedRegion ph = true → holdsSlot ph = true := by
  refine ⟨le_trans (timedCount_le_holders s) (holders_le_of_reachable h), ?_⟩
  intro ph _ hph
  cases ph <;> simp_all [inTimedRegion, holdsSlot]

/-- Witness for C9: with cap 1 and two tasks, after one task acquires the
slot and starts its timer, the reached state has one task in its timed
region, within the bound. -/
theorem timed_region_bounded_witness :
    timedCount [Phase.timing, Phase.ready] ≤ 1 ∧
    ∀ ph ∈ [Phase.timing, Phase.ready],
      inTimedRegion ph = true → holdsSlot ph = true :=
  timed_region_bounded (c := 1) (t := 2)
    (Relation.ReflTransGen.tail
      (Relation.ReflTransGen.tail Relation.ReflTransGen.refl
        (Step.acquire (List.replicate 2 .ready) 0 rfl (by decide)))
      (Step.startTimer [Phase.acquired, Phase.ready] 0 rfl))

end Analyze
